import Mathlib

/-!
Shallow embedding of the gejang tree-walking interpreter (src/walker):
tokens and AST (ast.rs, shared/scanner.rs), the static resolver
(resolver.rs), and the runtime evaluator with its environment stack
(interpreter.rs, values.rs), together with theorems settling the claims
about the resolver/evaluator pipeline.

Modelling conventions:
* Rust `f64` numbers are modelled as exact fractions of integers
  (`LoxNum`, an unreduced `Int` pair).  Every numeric computation the
  verified claims exercise stays on (small) integers, where `f64`
  arithmetic is exact, so the model and the code agree bit-for-bit
  there; IEEE rounding and infinities are outside the model.
* `Rc<RefCell<Value>>` cells (`LoxPointer`) are modelled as indices
  into a value heap, and environment frames (`Rc<RefCell<Environment>>`)
  as indices into a frame heap; cloning an `EnvironmentStack` copies the
  index list, exactly like cloning the `Vec` of `Rc` handles.
  `HashMap` is modelled as an association list with overwriting insert,
  which has the same `get`/`insert` semantics (iteration order is never
  observed by the embedded code).
* Rust panics (`expect`, `unreachable!`) are a distinct `panic` outcome;
  the runtime evaluator additionally consumes fuel, and running out of
  fuel is its own outcome (`outOfFuel`), never confused with the
  program's own errors.
* The interpreter writes `print` output to the injected output sink;
  the sink is modelled as the list of printed lines.  (The stray debug
  `println!` in `EnvironmentStack::get` writes to the real stdout, not
  to the sink, so it does not appear in the model's output.)
-/

deriving instance DecidableEq for Except

namespace Gejang

/-- Exact stand-in for the `f64` of `Value::Number`: an unreduced
fraction `num / den`.  Literals have `den = 1`; addition, subtraction,
multiplication and comparison keep denominators positive and agree
exactly with `f64` on the integer-valued fragment the claims use. -/
structure LoxNum where
  num : Int
  den : Int
deriving DecidableEq, Repr

/-- Number literal with the given integer value. -/
def LoxNum.int (n : Int) : LoxNum := ⟨n, 1⟩

def LoxNum.add (a b : LoxNum) : LoxNum := ⟨a.num * b.den + b.num * a.den, a.den * b.den⟩

def LoxNum.sub (a b : LoxNum) : LoxNum := ⟨a.num * b.den - b.num * a.den, a.den * b.den⟩

def LoxNum.mul (a b : LoxNum) : LoxNum := ⟨a.num * b.num, a.den * b.den⟩

/-- Division `a / b`, sign-normalised so denominators stay positive.
`f64` division by zero (yielding `inf`) is outside the model. -/
def LoxNum.div (a b : LoxNum) : LoxNum :=
  let n := a.num * b.den
  let d := a.den * b.num
  if d < 0 then ⟨-n, -d⟩ else ⟨n, d⟩

def LoxNum.neg (a : LoxNum) : LoxNum := ⟨-a.num, a.den⟩

/-- Numeric equality of fractions (Rust compares the `f64` values). -/
def LoxNum.beq (a b : LoxNum) : Bool := a.num * b.den == b.num * a.den

def LoxNum.ltb (a b : LoxNum) : Bool := a.num * b.den < b.num * a.den

def LoxNum.leb (a b : LoxNum) : Bool := a.num * b.den ≤ b.num * a.den

/-- Display of a number (`f64`'s `Display`), faithful on the
integer-valued numbers the verified programs print. -/
def LoxNum.display (x : LoxNum) : String :=
  if x.den ≠ 0 ∧ x.num % x.den = 0 then toString (x.num / x.den) else "<non-integral number>"

/-- Token kinds, from `shared/scanner.rs` (`TokenType`). -/
inductive TokenType where
  | leftParen | rightParen | leftBrace | rightBrace | comma | dot | minus | plus
  | semicolon | slash | star | bang | bangEqual | equal | equalEqual
  | greater | greaterEqual | less | lessEqual
  | identifier (name : String)
  | string (value : String)
  | number (value : LoxNum)
  | and | breakT | classT | elseT | falseT | forT | funT | ifT | nilT | or
  | print | returnT | superT | thisT | trueT | varT
  | comment (text : String)
  | whileT
deriving DecidableEq, Repr

/-- The `Display` implementation of `TokenType` (used in runtime error
messages such as the `Unimplemented` message of binary operators). -/
def TokenType.display : TokenType → String
  | .leftParen => "("
  | .rightParen => ")"
  | .leftBrace => "\x7b"
  | .rightBrace => "\x7d"
  | .comma => "),"
  | .dot => "."
  | .minus => "-"
  | .plus => "+"
  | .semicolon => ";"
  | .slash => "/"
  | .star => "*"
  | .bang => "!"
  | .bangEqual => "!="
  | .equal => "="
  | .equalEqual => "=="
  | .greater => ">"
  | .greaterEqual => ">="
  | .less => "<"
  | .lessEqual => "<="
  | .identifier id => "identifier(" ++ id ++ ")"
  | .string s => "string(" ++ s ++ ")"
  | .number n => "number(" ++ n.display ++ ")"
  | .and => "and"
  | .breakT => "break"
  | .classT => "class"
  | .elseT => "else"
  | .falseT => "false"
  | .forT => "for"
  | .funT => "fun"
  | .ifT => "if"
  | .nilT => "nil"
  | .or => "or"
  | .print => "print"
  | .returnT => "return"
  | .superT => "super"
  | .thisT => "this"
  | .trueT => "true"
  | .varT => "var"
  | .comment _ => "a comment"
  | .whileT => "while"

/-- A scanner token: kind, source lexeme and line (`shared/scanner.rs`). -/
structure Token where
  typ : TokenType
  lexeme : String
  line : Nat
deriving DecidableEq, Repr

/-- The static `TRUE` token the parser substitutes for an omitted
for-loop condition (`parser.rs`). -/
def TRUE : Token := ⟨.trueT, "true", 0⟩

/- The AST of `walker/ast.rs` (`Expr` and `Stmt`), with the `Vec`
fields represented by the mutually defined list types so that the
resolver and the equality test can recurse structurally. -/
mutual
inductive Expr where
  | assign (name : Token) (value : Expr)
  | binary (left : Expr) (op : Token) (right : Expr)
  | call (callee : Expr) (args : ExprList)
  | get (object : Expr) (name : Token)
  | unary (op : Token) (right : Expr)
  | grouping (expr : Expr)
  | literal (value : Token)
  | logical (left : Expr) (op : Token) (right : Expr)
  | set (object : Expr) (name : Token) (value : Expr)
  | this (keyword : Token)
  | variable (name : Token)
inductive ExprList where
  | nil
  | cons (head : Expr) (tail : ExprList)
inductive Stmt where
  | block (stmts : StmtList)
  | breakS
  | classS (name : Token) (methods : StmtList)
  | expression (expr : Expr)
  | function (name : Token) (params : List Token) (body : StmtList)
  | ifS (condition : Expr) (thn : Stmt) (els : Option Stmt)
  | print (expr : Expr)
  | returnS (value : Option Expr)
  | varS (name : Token) (initializer : Option Expr)
  | whileS (condition : Expr) (body : Stmt)
inductive StmtList where
  | nil
  | cons (head : Stmt) (tail : StmtList)
end

def ExprList.ofList : List Expr → ExprList
  | [] => .nil
  | e :: l => .cons e (ExprList.ofList l)

def StmtList.ofList : List Stmt → StmtList
  | [] => .nil
  | s :: l => .cons s (StmtList.ofList l)

def ExprList.length : ExprList → Nat
  | .nil => 0
  | .cons _ l => 1 + ExprList.length l

/- Structural equality on expressions: the derived `PartialEq`/`Hash`
of `Expr` in `ast.rs`, which is what keys the resolver's `locals`
table (`HashMap<&Expr, usize>` hashes and compares the pointed-to
expressions structurally, tokens included). -/
mutual
def Expr.beq : Expr → Expr → Bool
  | .assign n v, .assign n' v' => n == n' && Expr.beq v v'
  | .binary l o r, .binary l' o' r' => Expr.beq l l' && o == o' && Expr.beq r r'
  | .call c a, .call c' a' => Expr.beq c c' && ExprList.beq a a'
  | .get o n, .get o' n' => Expr.beq o o' && n == n'
  | .unary o r, .unary o' r' => o == o' && Expr.beq r r'
  | .grouping e, .grouping e' => Expr.beq e e'
  | .literal v, .literal v' => v == v'
  | .logical l o r, .logical l' o' r' => Expr.beq l l' && o == o' && Expr.beq r r'
  | .set o n v, .set o' n' v' => Expr.beq o o' && n == n' && Expr.beq v v'
  | .this k, .this k' => k == k'
  | .variable n, .variable n' => n == n'
  | _, _ => false
def ExprList.beq : ExprList → ExprList → Bool
  | .nil, .nil => true
  | .cons e l, .cons e' l' => Expr.beq e e' && ExprList.beq l l'
  | _, _ => false
def Stmt.beq : Stmt → Stmt → Bool
  | .block ss, .block ss' => StmtList.beq ss ss'
  | .breakS, .breakS => true
  | .classS n ms, .classS n' ms' => n == n' && StmtList.beq ms ms'
  | .expression e, .expression e' => Expr.beq e e'
  | .function n ps b, .function n' ps' b' => n == n' && ps == ps' && StmtList.beq b b'
  | .ifS c t (some e), .ifS c' t' (some e') =>
    Expr.beq c c' && Stmt.beq t t' && Stmt.beq e e'
  | .ifS c t none, .ifS c' t' none => Expr.beq c c' && Stmt.beq t t'
  | .print e, .print e' => Expr.beq e e'
  | .returnS (some v), .returnS (some v') => Expr.beq v v'
  | .returnS none, .returnS none => true
  | .varS n (some i), .varS n' (some i') => n == n' && Expr.beq i i'
  | .varS n none, .varS n' none => n == n'
  | .whileS c b, .whileS c' b' => Expr.beq c c' && Stmt.beq b b'
  | _, _ => false
def StmtList.beq : StmtList → StmtList → Bool
  | .nil, .nil => true
  | .cons s l, .cons s' l' => Stmt.beq s s' && StmtList.beq l l'
  | _, _ => false
end

/-! Association lists standing in for `HashMap`: `aget` is `HashMap::get`
and `ainsert` is `HashMap::insert` (overwrite an existing key, append a
new one).  Only `get`/`insert` are ever used by the embedded code, so the
unobserved iteration order does not matter. -/

def aget {α : Type} (m : List (String × α)) (k : String) : Option α :=
  (m.find? (fun p => p.1 == k)).map (·.2)

def ainsert {α : Type} (m : List (String × α)) (k : String) (v : α) : List (String × α) :=
  match m with
  | [] => [(k, v)]
  | (k', v') :: rest => if k' == k then (k, v) :: rest else (k', v') :: ainsert rest k v

/-- The resolver's side table mapping variable-reference expression
nodes to scope depths (`Locals = HashMap<&Expr, usize>` in
`resolver.rs`), keyed by the structural equality of `Expr`. -/
abbrev Locals : Type := List (Expr × Nat)

/-- Lookup in the locals table (`locals.get(expr)`). -/
def lget (L : Locals) (e : Expr) : Option Nat :=
  ((List.find? (fun p => Expr.beq p.1 e) L).map (·.2))

/-- Insert into the locals table (`locals.insert(expr, depth)`). -/
def linsert (L : Locals) (e : Expr) (d : Nat) : Locals :=
  match L with
  | [] => [(e, d)]
  | (e', d') :: rest => if Expr.beq e' e then (e, d) :: rest else (e', d') :: linsert rest e d

/-- Index, counted from the front of the list, of the last element
satisfying the predicate: `Iterator::rposition`, which
`Resolver::resolve_local` applies to the scope stack. -/
def rposition {α : Type} (p : α → Bool) : List α → Option Nat
  | [] => none
  | x :: xs =>
    match rposition p xs with
    | some i => some (i + 1)
    | none => if p x then some 0 else none

/-! ## The resolver (`walker/resolver.rs`) -/

/-- A resolver scope: the name-to-initialised-flag map of one lexical
scope (`HashMap<&str, bool>`).  The scope stack grows at the end of the
list: the last entry is the innermost scope, as in `ScopeStack`'s
`Vec`. -/
abbrev Scope : Type := List (String × Bool)

/-- Whether a scope contains a name (`HashMap::contains_key`). -/
def Scope.containsName (s : Scope) (n : String) : Bool := (aget s n).isSome

/-- `FunctionType` of `resolver.rs`. -/
inductive FunctionType where
  | function
deriving DecidableEq, Repr

/-- The mutable state of `Resolver`: the scope stack, the locals table
being built, and the current function type. -/
structure RState where
  scopes : List Scope
  locals : Locals
  currentFunctionType : Option FunctionType

/-- Failures of the resolve pass.  `resolution` is
`ResolutionError::Error { msg }`.  `unmatched` marks the expression
variants (`Set`, `This`) for which `Resolver::resolve_expression` has no
match arm in the source: no behaviour exists for them, and no claim
exercises them. -/
inductive RFailure where
  | resolution (msg : String)
  | unmatched (msg : String)
deriving DecidableEq, Repr

/-- `Resolver::declare`: mark the name present-but-uninitialised in the
innermost scope, failing if the scope already has it; with an empty
scope stack, do nothing. -/
def declare (st : RState) (name : Token) : Except RFailure RState :=
  match st.scopes.getLast? with
  | none => .ok st
  | some scope =>
    if scope.containsName name.lexeme then
      .error (.resolution ("Variable " ++ name.lexeme ++ " was already defined in this scope"))
    else
      .ok { st with scopes := st.scopes.dropLast ++ [ainsert scope name.lexeme false] }

/-- `Resolver::define`: mark the name initialised in the innermost
scope; with an empty scope stack, do nothing. -/
def define (st : RState) (name : Token) : RState :=
  match st.scopes.getLast? with
  | none => st
  | some scope => { st with scopes := st.scopes.dropLast ++ [ainsert scope name.lexeme true] }

/-- `Resolver::resolve_local`: record, for this expression node, the
`rposition` of the scope stack at the name (the index, counted from the
outermost scope, of the innermost scope containing it); record nothing
when no scope contains the name. -/
def resolveLocal (st : RState) (e : Expr) (name : Token) : RState :=
  match rposition (fun s => Scope.containsName s name.lexeme) st.scopes with
  | some depth => { st with locals := linsert st.locals e depth }
  | none => st

/-- Scope push of `ScopeStack::push`. -/
def rpush (st : RState) : RState := { st with scopes := st.scopes ++ [[]] }

/-- Scope pop of `ScopeStack::pop`. -/
def rpop (st : RState) : RState := { st with scopes := st.scopes.dropLast }

/-- Declare and define each function parameter in order (the parameter
loop of the `Stmt::Function` arm). -/
def declareDefineParams (params : List Token) (st : RState) : Except RFailure RState :=
  match params with
  | [] => .ok st
  | p :: rest => do
    let st ← declare st p
    declareDefineParams rest (define st p)

mutual

/-- `Resolver::resolve_statement`. -/
def resolveStmt : Stmt → RState → Except RFailure RState
  | .block stmts, st => do
    let st ← resolveStmtList stmts (rpush st)
    .ok (rpop st)
  | .breakS, st => .ok st
  | .expression e, st => resolveExpr e st
  | .function name params body, st => do
    let enclosing := st.currentFunctionType
    let st := { st with currentFunctionType := some .function }
    let st ← declare st name
    let st := define st name
    let st ← declareDefineParams params (rpush st)
    let st ← resolveStmtList body st
    .ok { rpop st with currentFunctionType := enclosing }
  | .ifS condition thn els, st => do
    let st ← resolveExpr condition st
    let st ← resolveStmt thn st
    match els with
    | some e => resolveStmt e st
    | none => .ok st
  | .print e, st => resolveExpr e st
  | .returnS value, st => do
    if st.currentFunctionType.isNone then
      .error (.resolution "Cannot return from global scope")
    else
      match value with
      | some v => resolveExpr v st
      | none => .ok st
  | .varS name initializer, st => do
    let st ← declare st name
    let st ←
      match initializer with
      | some i => resolveExpr i st
      | none => .ok st
    .ok (define st name)
  | .whileS condition body, st => do
    let st ← resolveExpr condition st
    resolveStmt body st
  | .classS name _methods, st => do
    let st ← declare st name
    .ok (define st name)

def resolveStmtList : StmtList → RState → Except RFailure RState
  | .nil, st => .ok st
  | .cons s rest, st => do
    let st ← resolveStmt s st
    resolveStmtList rest st

/-- `Resolver::resolve_expression`. -/
def resolveExpr : Expr → RState → Except RFailure RState
  | .assign name value, st => do
    let st ← resolveExpr value st
    .ok (resolveLocal st (.assign name value) name)
  | .binary left _ right, st => do
    let st ← resolveExpr left st
    resolveExpr right st
  | .call callee args, st => do
    let st ← resolveExpr callee st
    resolveExprList args st
  | .unary _ right, st => resolveExpr right st
  | .grouping e, st => resolveExpr e st
  | .literal _, st => .ok st
  | .logical left _ right, st => do
    let st ← resolveExpr left st
    resolveExpr right st
  | .variable name, st => do
    if (st.scopes.getLast?.bind (fun s => aget s name.lexeme)) = some false then
      .error (.resolution "Cannot read local variable in its own initializer")
    else
      .ok (resolveLocal st (.variable name) name)
  | .get object _, st => resolveExpr object st
  | .set _ _ _, _ => .error (.unmatched "Expr::Set has no arm in resolve_expression")
  | .this _, _ => .error (.unmatched "Expr::This has no arm in resolve_expression")

def resolveExprList : ExprList → RState → Except RFailure RState
  | .nil, st => .ok st
  | .cons e rest, st => do
    let st ← resolveExpr e st
    resolveExprList rest st

end

/-- `resolve`: run the resolver over a whole program from the default
state and return the locals table (`resolver.rs`, `pub fn resolve`). -/
def resolveProgram (stmts : List Stmt) : Except RFailure Locals :=
  match resolveStmtList (StmtList.ofList stmts) ⟨[], [], none⟩ with
  | .ok st => .ok st.locals
  | .error e => .error e

/-! ## Runtime values (`walker/interpreter.rs`, `walker/values.rs`)

A `LoxPointer = Rc<RefCell<Value>>` is an address (`Nat`) into the value
heap, and an environment frame handle `Rc<RefCell<Environment>>` is an
address into the frame heap; an `EnvironmentStack` is the list of its
frame addresses, global frame first, innermost frame last, exactly like
the `Vec` in the source. -/

/-- The two built-in native callbacks installed in the global frame. -/
inductive NativeImpl where
  | clock
  | tsp2cup
deriving DecidableEq, Repr

/-- Runtime values.  Fields follow the variants `interpreter.rs`
constructs and matches on: `Function` carries its parameter names, body
and captured environment chain; `Class` carries its method table
(name to function-cell address); `Instance` carries the address of its
class cell and its field table. -/
inductive Value where
  | number (n : LoxNum)
  | string (s : String)
  | boolean (b : Bool)
  | nil
  | nativeFunction (name : String) (arity : Nat) (f : NativeImpl)
  | function (name : String) (params : List String) (body : StmtList) (closure : List Nat)
  | classV (name : String) (methods : List (String × Nat))
  | instanceV (classRef : Nat) (fields : List (String × Nat))

/-- Truthiness (`Value::is_truthy`): only `false` and `Nil` are falsy. -/
def Value.isTruthy : Value → Bool
  | .boolean b => b
  | .nil => false
  | _ => true

/-- The `strum` `AsRefStr` of `Value`: the bare variant name, used in
the `Unimplemented` message of a failed binary operation. -/
def Value.kindName : Value → String
  | .number _ => "Number"
  | .string _ => "String"
  | .boolean _ => "Boolean"
  | .nil => "Nil"
  | .nativeFunction _ _ _ => "NativeFunction"
  | .function _ _ _ _ => "Function"
  | .classV _ _ => "Class"
  | .instanceV _ _ => "Instance"

/-- The derived `PartialEq` of `Value`, as used by the `==`/`!=`
operators: numbers compare numerically, everything else structurally.
Closure chains compare as their frame-handle lists (the source compares
the frames behind the handles; on the claim programs no two distinct
frames are ever compared, so the handle comparison agrees). -/
def Value.beq : Value → Value → Bool
  | .number a, .number b => a.beq b
  | .string a, .string b => a == b
  | .boolean a, .boolean b => a == b
  | .nil, .nil => true
  | .nativeFunction n a f, .nativeFunction n' a' f' => n == n' && a == a' && f == f'
  | .function n p b c, .function n' p' b' c' =>
    n == n' && p == p' && StmtList.beq b b' && c == c'
  | .classV n m, .classV n' m' => n == n' && m == m'
  | .instanceV c f, .instanceV c' f' => c == c' && f == f'
  | _, _ => false

/-- `Value::from(&TokenType)`: literal tokens to values; any other
token kind is `unreachable!`. -/
def valueOfToken : TokenType → Option Value
  | .number v => some (.number v)
  | .string v => some (.string v)
  | .trueT => some (.boolean true)
  | .falseT => some (.boolean false)
  | .nilT => some .nil
  | _ => none

/-- A frame of the environment stack: one scope's name-to-cell map
(`Environment`). -/
abbrev Frame : Type := List (String × Nat)

/-- The interpreter's mutable world: the value heap (the targets of all
`LoxPointer` cells), the frame heap (the targets of all frame handles),
the active environment chain, the lines written to the output sink, and
the (fixed) reading the `clock` native returns. -/
structure IState where
  heap : List Value
  frames : List Frame
  env : List Nat
  output : List String
  now : LoxNum

/-- Runtime errors (`RuntimeError` of `interpreter.rs`), including the
`Return`/`Break` control-flow signals. -/
inductive RuntimeError where
  | unimplemented (msg : String)
  | printFailed
  | undefinedVariable (name : String)
  | notCallable (typ : String)
  | wrongNumberOfArgs (arity : Nat) (got : Nat)
  | onlyInstancesHaveAttributes
  | ret (value : Nat)
  | breakSignal
deriving DecidableEq, Repr

/-- An abnormal outcome of the evaluator: a runtime error (or signal),
a Rust panic (`expect` / `unreachable!`), or exhaustion of the model's
fuel. -/
inductive Failure where
  | rt (e : RuntimeError)
  | panic (msg : String)
  | outOfFuel
deriving DecidableEq, Repr

/-- The evaluator's state-and-error monad: mutations performed before a
failure persist, as they do through the `RefCell`s in the source. -/
def M (α : Type) : Type := IState → Except Failure α × IState

instance : Monad M where
  pure a := fun s => (.ok a, s)
  bind x f := fun s =>
    match x s with
    | (.ok a, s') => f a s'
    | (.error e, s') => (.error e, s')

/-- Raise a failure. -/
def throwF {α : Type} (e : Failure) : M α := fun s => (.error e, s)

/-- Read the whole state. -/
def getS : M IState := fun s => (.ok s, s)

/-- Replace the whole state. -/
def setS (s : IState) : M Unit := fun _ => (.ok (), s)

/-- Run a computation and reify its outcome instead of propagating it:
the explicit `match` the source performs on an intermediate `Result`
(the `while` loop's break filter, the call arm's return filter). -/
def attempt {α : Type} (x : M α) : M (Except Failure α) := fun s =>
  match x s with
  | (r, s') => (.ok r, s')

/-- Allocate a fresh value cell (`Value::into::<LoxPointer>()`). -/
def alloc (v : Value) : M Nat := fun s =>
  (.ok s.heap.length, { s with heap := s.heap ++ [v] })

/-- Read a value cell (`LoxPointer::borrow`); a dangling address is
impossible for `Rc` and panics in the model. -/
def readCell (a : Nat) : M Value := fun s =>
  match s.heap.get? a with
  | some v => (.ok v, s)
  | none => (.error (.panic "dangling value cell"), s)

/-- Overwrite a value cell (`LoxPointer::borrow_mut`). -/
def writeCell (a : Nat) (v : Value) : M Unit := fun s =>
  (.ok (), { s with heap := s.heap.set a v })

/-- `EnvironmentStack::push`: open a fresh innermost frame. -/
def epush : M Unit := fun s =>
  (.ok (), { s with frames := s.frames ++ [[]], env := s.env ++ [s.frames.length] })

/-- `EnvironmentStack::pop`: drop the innermost frame handle (the frame
itself stays in the frame heap, like the `Rc` it models). -/
def epop : M Unit := fun s =>
  (.ok (), { s with env := s.env.dropLast })

/-- Insert a binding into a given frame. -/
def defineInFrame (fid : Nat) (name : String) (a : Nat) : M Unit := fun s =>
  match s.frames.get? fid with
  | some fr => (.ok (), { s with frames := s.frames.set fid (ainsert fr name a) })
  | none => (.error (.panic "dangling frame handle"), s)

/-- `EnvironmentStack::define`: insert-or-overwrite in the current
(innermost) frame; an empty environment stack is an `expect` panic. -/
def defineVar (name : String) (a : Nat) : M Unit := do
  let s ← getS
  match s.env.getLast? with
  | some fid => defineInFrame fid name a
  | none => throwF (.panic "Empty environment stack")

/-- Frame targeted by a resolved depth: frame `d + 1` of the chain for
depth `Some(d)` (the resolver counts without the global frame), the
first (global) frame for `None`.  A missing frame at a recorded depth is
an `expect` panic. -/
def targetFrame (depth : Option Nat) : M Nat := do
  let s ← getS
  match depth with
  | some d =>
    match s.env.get? (d + 1) with
    | some fid => pure fid
    | none => throwF (.panic "Environment lookup resolved to missing depth")
  | none =>
    match s.env.head? with
    | some fid => pure fid
    | none => throwF (.panic "Environment stack was unexpectedly empty")

/-- `EnvironmentStack::get`: look the name up in the frame selected by
the resolved depth; absence there is `UndefinedVariable`. -/
def envGet (name : String) (depth : Option Nat) : M Nat := do
  let fid ← targetFrame depth
  let s ← getS
  match s.frames.get? fid with
  | none => throwF (.panic "dangling frame handle")
  | some fr =>
    match aget fr name with
    | some a => pure a
    | none => throwF (.rt (.undefinedVariable name))

/-- `EnvironmentStack::assign`: `define` the name into the frame
selected by the resolved depth — overwriting or silently creating the
binding — and return the assigned cell. -/
def envAssign (name : String) (a : Nat) (depth : Option Nat) : M Nat := do
  let fid ← targetFrame depth
  defineInFrame fid name a
  pure a

/-- Display of a value (the `Display` implementation in `values.rs`),
used by `print` and by the `NotCallable` error.  An instance displays
its class cell, which by construction holds a `Class` value. -/
def displayValue (heap : List Value) (v : Value) : String :=
  match v with
  | .number n => n.display
  | .string s => s
  | .boolean b => if b then "true" else "false"
  | .nil => "nil"
  | .nativeFunction name arity _ => "<native fun " ++ name ++ "/" ++ toString arity ++ ">"
  | .function name params _ _ => "<fun " ++ name ++ "/" ++ toString params.length ++ ">"
  | .classV name _ => "<cls " ++ name ++ ">"
  | .instanceV classRef _ =>
    match heap.get? classRef with
    | some (.classV name _) => "<instance of <cls " ++ name ++ ">>"
    | _ => "<instance of <dangling class>>"

/-- The binary-operator table of `Interpreter::evaluate`
(`Expr::Binary` arm), arms in source order: numeric arithmetic and
comparison, string concatenation for `+`, structural (on numbers:
numeric) equality for `==`/`!=`, and a typed `Unimplemented` error
naming both operand kinds for every other combination. -/
def binaryOp (l : Value) (op : TokenType) (r : Value) : Except RuntimeError Value :=
  match l, op, r with
  | .number a, .plus, .number b => .ok (.number (a.add b))
  | .number a, .minus, .number b => .ok (.number (a.sub b))
  | .number a, .star, .number b => .ok (.number (a.mul b))
  | .number a, .slash, .number b => .ok (.number (a.div b))
  | .number a, .greater, .number b => .ok (.boolean (b.ltb a))
  | .number a, .greaterEqual, .number b => .ok (.boolean (b.leb a))
  | .number a, .less, .number b => .ok (.boolean (a.ltb b))
  | .number a, .lessEqual, .number b => .ok (.boolean (a.leb b))
  | .string a, .plus, .string b => .ok (.string (a ++ b))
  | l, .equalEqual, r => .ok (.boolean (Value.beq l r))
  | l, .bangEqual, r => .ok (.boolean (!Value.beq l r))
  | l, o, r =>
    .error (.unimplemented
      ("Binary operation not implemented: " ++ l.kindName ++ " " ++ o.display ++ " "
        ++ r.kindName))

/-- Run a native callback (the closures installed by
`Environment::global`): `clock` returns the current time reading,
`tsp2cup` divides its numeric argument by 48 and panics
(`unreachable!`) on anything else. -/
def runNative : NativeImpl → List Nat → M Nat
  | .clock, _ => do
    let s ← getS
    alloc (.number s.now)
  | .tsp2cup, args =>
    match args.head? with
    | none => throwF (.panic "Missing argument")
    | some a => do
      let v ← readCell a
      match v with
      | .number t => alloc (.number (t.div (LoxNum.int 48)))
      | _ => throwF (.panic "unreachable: tsp2cup applied to a non-number")

/-- Bind each parameter to the corresponding argument cell in the
current innermost frame (`a.iter().zip(params.iter())`, which stops at
the shorter list). -/
def bindParams : List (Nat × String) → M Unit
  | [] => pure ()
  | (arg, param) :: rest => do
    defineVar param arg
    bindParams rest

/-- The filter the `Expr::Call` arm applies to the outcome of a
dispatched call: a `Return` signal is caught and yields its carried
value, every other outcome passes through. -/
def callOutcome (r : Except Failure Nat) : Except Failure Nat :=
  match r with
  | .ok v => .ok v
  | .error (.rt (.ret v)) => .ok v
  | .error e => .error e

/-- Allocate the method-table cells of a class declaration in source
order (`Stmt::Class` arm): each method must be a `Stmt::Function`
(anything else is `unreachable!`), and becomes a `Function` value
closing over the environment chain current at the declaration. -/
def collectMethodPairs : StmtList → M (List (String × Nat))
  | .nil => pure []
  | .cons m rest =>
    match m with
    | .function name params body => do
      let s ← getS
      let a ← alloc (.function name.lexeme (params.map (·.lexeme)) body s.env)
      let tail ← collectMethodPairs rest
      pure ((name.lexeme, a) :: tail)
    | _ => throwF (.panic "Class method not a function")

/-- Collect allocated method pairs into the class's method table
(`collect::<HashMap<_, _>>()`: later duplicates overwrite earlier
ones). -/
def buildMethods (ms : StmtList) : M (List (String × Nat)) := do
  let ps ← collectMethodPairs ms
  pure (ps.foldl (fun acc p => ainsert acc p.1 p.2) [])

/-- The `Expr::Get` arm after the receiver has been evaluated: look the
attribute up in an instance's field table (absence is
`UndefinedVariable`, a non-instance receiver is
`OnlyInstancesHaveAttributes`); a found `Function` value is rebound as a
bound method — a fresh frame defining `this` as the receiver is pushed
onto a copy of its closure chain. -/
def getAttr (o : Nat) (name : Token) : M Nat := do
  let ov ← readCell o
  let x ←
    match ov with
    | .instanceV _ fields =>
      match aget fields name.lexeme with
      | some a => pure a
      | none => throwF (.rt (.undefinedVariable name.lexeme))
    | _ => throwF (.rt (.onlyInstancesHaveAttributes))
  let xv ← readCell x
  match xv with
  | .function fname params body closure => do
    let s ← getS
    let fid := s.frames.length
    setS { s with frames := s.frames ++ [[]] }
    defineInFrame fid "this" o
    alloc (.function fname params body (closure ++ [fid]))
  | _ => pure x

/-- The mutually recursive entry points of `Interpreter`, abstracted
over the recursive calls so that the whole interpreter can be tied
together by a single recursion on fuel (`mkInterp`). -/
structure Interp where
  execute : Stmt → M Unit
  interpretL : StmtList → M Unit
  evaluate : Expr → M Nat
  evaluateArgs : ExprList → M (List Nat)
  dispatchCall : Value → List Nat → M Nat
  callFunction : List String → StmtList → List Nat → List Nat → M Nat
  callClass : String → List (String × Nat) → List Nat → M Nat

/-- `Interpreter::execute` (one fuel layer; `I` holds the recursive
calls).  Note the faithfully reproduced `Stmt::Block` arm: the frame
pushed on entry is popped only when every statement of the block
succeeds — an error or a `Return`/`Break` signal propagates out with
the frame still on the stack. -/
def executeStep (I : Interp) : Stmt → M Unit
  | stmt =>
    match stmt with
    | .block stmts => do
      epush
      I.interpretL stmts
      epop
    | .expression e => do
      let _ ← I.evaluate e
      pure ()
    | .function name params body => do
      let s ← getS
      let a ← alloc (.function name.lexeme (params.map (·.lexeme)) body s.env)
      defineVar name.lexeme a
    | .classS name methods => do
      let a0 ← alloc .nil
      defineVar name.lexeme a0
      let ms ← buildMethods methods
      let a ← alloc (.classV name.lexeme ms)
      defineVar name.lexeme a
    | .ifS condition thn els => do
      let c ← I.evaluate condition
      let cv ← readCell c
      if cv.isTruthy then
        I.execute thn
      else
        match els with
        | some e => I.execute e
        | none => pure ()
    | .print e => do
      let a ← I.evaluate e
      let v ← readCell a
      let s ← getS
      setS { s with output := s.output ++ [displayValue s.heap v] }
    | .varS name initializer => do
      let ival ←
        match initializer with
        | some init => I.evaluate init
        | none => alloc .nil
      defineVar name.lexeme ival
    | .whileS condition body => do
      let c ← I.evaluate condition
      let cv ← readCell c
      if cv.isTruthy then do
        let r ← attempt (I.execute body)
        match r with
        | .error (.rt .breakSignal) => pure ()
        | .error e => throwF e
        | .ok () => I.execute (.whileS condition body)
      else
        pure ()
    | .returnS value => do
      let v ←
        match value with
        | some e => I.evaluate e
        | none => alloc .nil
      throwF (.rt (.ret v))
    | .breakS => throwF (.rt .breakSignal)

/-- `Interpreter::interpret`: execute the statements in order. -/
def interpretStep (I : Interp) : StmtList → M Unit
  | .nil => pure ()
  | .cons s rest => do
    I.execute s
    I.interpretL rest

/-- `Interpreter::evaluate`, returning the address of the result cell. -/
def evaluateStep (L : Locals) (I : Interp) : Expr → M Nat
  | e =>
    match e with
    | .literal t =>
      match valueOfToken t.typ with
      | some v => alloc v
      | none => throwF (.panic "Cannot get a literal value from token")
    | .grouping inner => I.evaluate inner
    | .unary op right => do
      let r ← I.evaluate right
      let rv ← readCell r
      match op.typ with
      | .minus =>
        match rv with
        | .number v => alloc (.number v.neg)
        | _ => throwF (.rt (.unimplemented "Cannot negate non-number"))
      | .bang => alloc (.boolean (!rv.isTruthy))
      | _ => throwF (.panic "Unary operator not implemented")
    | .binary left op right => do
      let l ← I.evaluate left
      let r ← I.evaluate right
      let lv ← readCell l
      let rv ← readCell r
      match binaryOp lv op.typ rv with
      | .ok v => alloc v
      | .error err => throwF (.rt err)
    | .logical left op right => do
      let l ← I.evaluate left
      let lv ← readCell l
      match lv.isTruthy, op.typ with
      | true, .or => pure l
      | false, .or => I.evaluate right
      | true, .and => I.evaluate right
      | false, .and => pure l
      | _, _ => throwF (.panic "Unexpected logical result/operator")
    | .variable name => envGet name.lexeme (lget L (.variable name))
    | .assign name value => do
      let v ← I.evaluate value
      envAssign name.lexeme v (lget L (.assign name value))
    | .set object name value => do
      let o ← I.evaluate object
      let ov ← readCell o
      match ov with
      | .instanceV classRef fields => do
        let v ← I.evaluate value
        writeCell o (.instanceV classRef (ainsert fields name.lexeme v))
        pure v
      | _ => throwF (.rt .onlyInstancesHaveAttributes)
    | .call callee args => do
      let c ← I.evaluate callee
      let a ← I.evaluateArgs args
      let cv ← readCell c
      let r ← attempt (I.dispatchCall cv a)
      match callOutcome r with
      | .ok v => pure v
      | .error err => throwF err
    | .get object name => do
      let o ← I.evaluate object
      getAttr o name
    | .this keyword => envGet keyword.lexeme (lget L (.this keyword))

/-- Argument evaluation of the `Expr::Call` arm, left to right,
stopping at the first error. -/
def evaluateArgsStep (I : Interp) : ExprList → M (List Nat)
  | .nil => pure []
  | .cons e rest => do
    let a ← I.evaluate e
    let tail ← I.evaluateArgs rest
    pure (a :: tail)

/-- Call dispatch on the (cloned) callee value: native function, user
function, class construction, or the `NotCallable` error displaying the
callee. -/
def dispatchCallStep (I : Interp) : Value → List Nat → M Nat
  | c, args =>
    match c with
    | .nativeFunction _ arity f =>
      if args.length ≠ arity then
        throwF (.rt (.wrongNumberOfArgs arity args.length))
      else
        runNative f args
    | .function _ params body closure => I.callFunction params body closure args
    | .classV name methods => I.callClass name methods args
    | other => do
      let s ← getS
      throwF (.rt (.notCallable (displayValue s.heap other)))

/-- The `Value::Function` case of call dispatch: check arity, swap the
active chain for the stored closure chain, push a fresh parameter
frame, bind the parameters positionally, run the body, then pop that
frame and restore the caller's chain whatever the body's outcome, and
yield `Nil` on normal completion. -/
def callFunctionStep (I : Interp) :
    List String → StmtList → List Nat → List Nat → M Nat
  | params, body, closure, args =>
    if args.length ≠ params.length then
      throwF (.rt (.wrongNumberOfArgs params.length args.length))
    else do
      let s ← getS
      let oldEnv := s.env
      setS { s with env := closure }
      epush
      bindParams (args.zip params)
      let r ← attempt (I.interpretL body)
      epop
      let s' ← getS
      setS { s' with env := oldEnv }
      match r with
      | .ok () => alloc .nil
      | .error err => throwF err

/-- The `Value::Class` case of call dispatch: allocate a cell holding a
copy of the class value, build the instance with its field table seeded
from the method table, and, only when an `init` method exists, check
its arity and run it with `this` bound to the new instance (an error
from `init` propagates with `?`, before the pops and the chain
restore). -/
def callClassStep (I : Interp) :
    String → List (String × Nat) → List Nat → M Nat
  | name, methods, args => do
    let classAddr ← alloc (.classV name methods)
    let iAddr ← alloc (.instanceV classAddr methods)
    match aget methods "init" with
    | none => pure iAddr
    | some initAddr => do
      let iv ← readCell initAddr
      match iv with
      | .function _ params body closure =>
        if args.length ≠ params.length then
          throwF (.rt (.wrongNumberOfArgs params.length args.length))
        else do
          let s ← getS
          let oldEnv := s.env
          setS { s with env := closure }
          epush
          defineVar "this" iAddr
          epush
          bindParams (args.zip params)
          I.interpretL body
          epop
          epop
          let s' ← getS
          setS { s' with env := oldEnv }
          pure iAddr
      | _ => pure iAddr

/-- The interpreter with `fuel` layers of recursion available: one step
of each entry point per layer, every recursive call consuming a layer;
a call at fuel zero is `outOfFuel`.  (The source recurses on the host
stack; the fuel only bounds the model's recursion depth and is
otherwise inert.) -/
def mkInterp (L : Locals) : Nat → Interp
  | 0 =>
    { execute := fun _ => throwF .outOfFuel
    , interpretL := fun _ => throwF .outOfFuel
    , evaluate := fun _ => throwF .outOfFuel
    , evaluateArgs := fun _ => throwF .outOfFuel
    , dispatchCall := fun _ _ => throwF .outOfFuel
    , callFunction := fun _ _ _ _ => throwF .outOfFuel
    , callClass := fun _ _ _ => throwF .outOfFuel }
  | fuel + 1 =>
    let prev := mkInterp L fuel
    { execute := executeStep prev
    , interpretL := interpretStep prev
    , evaluate := evaluateStep L prev
    , evaluateArgs := evaluateArgsStep prev
    , dispatchCall := dispatchCallStep prev
    , callFunction := callFunctionStep prev
    , callClass := callClassStep prev }

/-- `Interpreter::execute` at a given fuel. -/
def execute (L : Locals) (fuel : Nat) : Stmt → M Unit := (mkInterp L fuel).execute

/-- `Interpreter::interpret` at a given fuel. -/
def interpretL (L : Locals) (fuel : Nat) : StmtList → M Unit := (mkInterp L fuel).interpretL

/-- `Interpreter::evaluate` at a given fuel. -/
def evaluate (L : Locals) (fuel : Nat) : Expr → M Nat := (mkInterp L fuel).evaluate

/-- The `Value::Function` call case at a given fuel. -/
def callFunction (L : Locals) (fuel : Nat) :
    List String → StmtList → List Nat → List Nat → M Nat :=
  (mkInterp L fuel).callFunction

/-- The `Value::Class` call case at a given fuel. -/
def callClass (L : Locals) (fuel : Nat) :
    String → List (String × Nat) → List Nat → M Nat :=
  (mkInterp L fuel).callClass

/-- Call dispatch at a given fuel. -/
def dispatchCall (L : Locals) (fuel : Nat) : Value → List Nat → M Nat :=
  (mkInterp L fuel).dispatchCall

/-- The state `Interpreter::new` starts from: only the global frame,
holding the two native functions installed by `Environment::global`. -/
def initState (now : LoxNum) : IState :=
  { heap := [.nativeFunction "clock" 0 .clock, .nativeFunction "tsp2cup" 1 .tsp2cup]
  , frames := [[("clock", 0), ("tsp2cup", 1)]]
  , env := [0]
  , output := []
  , now := now }

/-- A failure of the resolve-then-interpret pipeline of `walker/mod.rs`
(the scan and parse stages are upstream of the embedded fragment). -/
inductive PipelineError where
  | resolver (e : RFailure)
  | evaluation (e : Failure)
deriving DecidableEq, Repr

/-- The post-parse pipeline of `walker/mod.rs::interpret`: resolve the
program (aborting, with no evaluation, on a resolution error), then
execute it with a fresh interpreter; the second component is the final
interpreter state, whose `output` field is the lines written to the
output sink. -/
def runFull (fuel : Nat) (prog : List Stmt) (now : LoxNum) :
    Except PipelineError Unit × IState :=
  match resolveProgram prog with
  | .error e => (.error (.resolver e), initState now)
  | .ok locals =>
    match interpretL locals fuel (StmtList.ofList prog) (initState now) with
    | (.ok (), s) => (.ok (), s)
    | (.error f, s) => (.error (.evaluation f), s)

/-- The desugaring `Parser::for_statement` performs once the loop
clauses are parsed (`parser.rs` lines 214-257): an omitted condition
becomes a `true` literal (the static `TRUE` token), an increment is
appended to the body inside a block, the result is wrapped in a
`While`, and an initializer wraps the whole thing in one more block.
No `For` statement exists in the AST. -/
def forStatement (initializer : Option Stmt) (condition : Option Expr)
    (increment : Option Expr) (body : Stmt) : Stmt :=
  let condition :=
    match condition with
    | some c => c
    | none => Expr.literal TRUE
  let body :=
    match increment with
    | some i => Stmt.block (.cons body (.cons (.expression i) .nil))
    | none => body
  let body := Stmt.whileS condition body
  match initializer with
  | some i => Stmt.block (.cons i (.cons body .nil))
  | none => body

/-! ## Concrete programs used by the claims

The token helpers build the tokens the scanner would produce (kind,
lexeme, source line). -/

/-- Identifier token. -/
def identTok (s : String) (ln : Nat) : Token := ⟨.identifier s, s, ln⟩

/-- Variable-reference expression. -/
def varRef (s : String) (ln : Nat) : Expr := .variable (identTok s ln)

/-- String-literal expression. -/
def strLit (s : String) (ln : Nat) : Expr := .literal ⟨.string s, s, ln⟩

/-- Number-literal expression with an integer value. -/
def numLit (n : Int) (ln : Nat) : Expr := .literal ⟨.number (LoxNum.int n), toString n, ln⟩

/-- The failure of a resolve run, if any (`Locals` has no decidable
equality, so concrete resolver outcomes are inspected through this
projection and through `lget`). -/
def resolveFailure (r : Except RFailure Locals) : Option RFailure :=
  match r with
  | .error e => some e
  | .ok _ => none

/-- `var a = "global"; { fun showA() { print a; } showA(); var a = "block"; showA(); }` -/
def progGlobalShadow : List Stmt := [
  .varS (identTok "a" 1) (some (strLit "global" 1)),
  .block (.ofList [
    .function (identTok "showA" 3) [] (.ofList [.print (varRef "a" 4)]),
    .expression (.call (varRef "showA" 7) .nil),
    .varS (identTok "a" 8) (some (strLit "block" 8)),
    .expression (.call (varRef "showA" 9) .nil)
  ])
]

/-- `while (true) { break; }` -/
def progWhileBreak : List Stmt := [
  .whileS (.literal ⟨.trueT, "true", 1⟩) (.block (.ofList [.breakS]))
]

/-- `while (true) { break; } { var y = 1; print y; }` — a well-scoped
program: after the loop the block declares `y` and reads it back. -/
def progWhileBreakThenBlock : List Stmt := [
  .whileS (.literal ⟨.trueT, "true", 1⟩) (.block (.ofList [.breakS])),
  .block (.ofList [
    .varS (identTok "y" 2) (some (numLit 1 2)),
    .print (varRef "y" 3)
  ])
]

/-- `{ var a; { print a; } }` — the reference to `a` sits one scope
below the scope declaring it. -/
def progNestedRef : List Stmt := [
  .block (.ofList [
    .varS (identTok "a" 1) none,
    .block (.ofList [.print (varRef "a" 2)])
  ])
]

/-- `x = 5; print x;` — assignment to a name never declared. -/
def progAssignUndeclared : List Stmt := [
  .expression (.assign (identTok "x" 1) (numLit 5 1)),
  .print (varRef "x" 2)
]

/-- `var a = a;` at the top level. -/
def progSelfRefTop : List Stmt := [
  .varS (identTok "a" 1) (some (varRef "a" 1))
]

/-- `{ var a = a; }` — the same declaration inside a block. -/
def progSelfRefBlock : List Stmt := [
  .block (.ofList [.varS (identTok "a" 1) (some (varRef "a" 1))])
]

/-- `class Foo {} Foo(1);` — constructing a class that has no `init`
method, passing one argument. -/
def progClassNoInitArg : List Stmt := [
  .classS (identTok "Foo" 1) .nil,
  .expression (.call (varRef "Foo" 2) (.ofList [numLit 1 2]))
]

/-- `for (var i = 0; i < 3; i = i + 1) print i;`, desugared exactly as
`Parser::for_statement` builds it. -/
def progForCount : List Stmt := [
  forStatement
    (some (.varS (identTok "i" 1) (some (numLit 0 1))))
    (some (.binary (varRef "i" 1) ⟨.less, "<", 1⟩ (numLit 3 1)))
    (some (.assign (identTok "i" 1) (.binary (varRef "i" 1) ⟨.plus, "+", 1⟩ (numLit 1 1))))
    (.print (varRef "i" 1))
]

/-- `var i = 0; while (i < 3) { print i; i = i + 1; }` — the
hand-written counterpart. -/
def progWhileCount : List Stmt := [
  .varS (identTok "i" 1) (some (numLit 0 1)),
  .whileS (.binary (varRef "i" 1) ⟨.less, "<", 1⟩ (numLit 3 1))
    (.block (.ofList [
      .print (varRef "i" 1),
      .expression (.assign (identTok "i" 1) (.binary (varRef "i" 1) ⟨.plus, "+", 1⟩ (numLit 1 1)))
    ]))
]

/-- `for (var i = 0; i < 2; i = i + 1) { while (true) break; print i; }`
— a `break` in an inner loop inside a for-loop body. -/
def progForInnerBreak : List Stmt := [
  forStatement
    (some (.varS (identTok "i" 1) (some (numLit 0 1))))
    (some (.binary (varRef "i" 1) ⟨.less, "<", 1⟩ (numLit 2 1)))
    (some (.assign (identTok "i" 1) (.binary (varRef "i" 1) ⟨.plus, "+", 1⟩ (numLit 1 1))))
    (.block (.ofList [
      .whileS (.literal ⟨.trueT, "true", 1⟩) .breakS,
      .print (varRef "i" 1)
    ]))
]

/-- `var i = 0; while (i < 2) { while (true) break; print i; i = i + 1; }`
— the hand-written counterpart of the inner-break loop. -/
def progWhileInnerBreak : List Stmt := [
  .varS (identTok "i" 1) (some (numLit 0 1)),
  .whileS (.binary (varRef "i" 1) ⟨.less, "<", 1⟩ (numLit 2 1))
    (.block (.ofList [
      .whileS (.literal ⟨.trueT, "true", 1⟩) .breakS,
      .print (varRef "i" 1),
      .expression (.assign (identTok "i" 1) (.binary (varRef "i" 1) ⟨.plus, "+", 1⟩ (numLit 1 1)))
    ]))
]

/- Whether an expression contains a read (an `Expr::Variable` node) of
the given name; assignment targets are not reads.  This is the syntactic
side condition of the self-referential-initializer claim. -/
mutual
def Expr.mentionsVar (n : String) : Expr → Bool
  | .assign _ value => Expr.mentionsVar n value
  | .binary left _ right => Expr.mentionsVar n left || Expr.mentionsVar n right
  | .call callee args => Expr.mentionsVar n callee || ExprList.mentionsVar n args
  | .get object _ => Expr.mentionsVar n object
  | .unary _ right => Expr.mentionsVar n right
  | .grouping e => Expr.mentionsVar n e
  | .literal _ => false
  | .logical left _ right => Expr.mentionsVar n left || Expr.mentionsVar n right
  | .set object _ value => Expr.mentionsVar n object || Expr.mentionsVar n value
  | .this _ => false
  | .variable name => name.lexeme == n
def ExprList.mentionsVar (n : String) : ExprList → Bool
  | .nil => false
  | .cons e rest => Expr.mentionsVar n e || ExprList.mentionsVar n rest
end

/-- The frame produced by binding zipped argument-parameter pairs into
an initial frame, in order (the net effect of the parameter-binding loop
of a function call). -/
def paramBind (fr : Frame) (l : List (Nat × String)) : Frame :=
  l.foldl (fun acc p => ainsert acc p.2 p.1) fr

/-! ## Claim theorems -/

set_option maxRecDepth 100000

/-- C1: for `var a = "global"; { fun showA() { print a; } showA();
var a = "block"; showA(); }`, resolve followed by interpret succeeds and
writes exactly the two lines `global` to the output sink — both calls of
the closure `showA` read the global binding of `a`, never the shadowing
block-local one. -/
theorem c1_closure_reads_global_binding :
    (runFull 100 progGlobalShadow (LoxNum.int 0)).1 = .ok () ∧
    (runFull 100 progGlobalShadow (LoxNum.int 0)).2.output = ["global", "global"] := by
  decide!

/-- C2: the frame pushed on block entry is NOT popped when a statement
inside the block ends in a `Break` signal: after `while (true)
{ break; }` the environment stack holds two frames instead of the
initial one, and the leaked frame then makes the well-scoped program
`while (true) { break; } { var y = 1; print y; }` fail at run time with
`UndefinedVariable y`. -/
theorem c2_block_frame_not_popped_on_break :
    (initState (LoxNum.int 0)).env.length = 1 ∧
    (runFull 100 progWhileBreak (LoxNum.int 0)).1 = .ok () ∧
    (runFull 100 progWhileBreak (LoxNum.int 0)).2.env.length = 2 ∧
    (runFull 100 progWhileBreakThenBlock (LoxNum.int 0)).1 =
      .error (.evaluation (.rt (.undefinedVariable "y"))) := by
  decide!

/-- C3, counterexample: in `{ var a; { print a; } }` the reference to
`a` sits one scope inside the scope declaring it, so the claimed
distance-from-current-scope is 1 — but `resolve_local` records 0 (the
absolute index, counted from the outermost scope, of the scope
containing `a`). -/
theorem c3_counterexample_depth_not_distance :
    (resolveProgram progNestedRef).toOption.map (fun L => lget L (varRef "a" 2)) =
      some (some 0) ∧
    ¬ ((resolveProgram progNestedRef).toOption.map (fun L => lget L (varRef "a" 2)) =
      some (some 1)) := by
  decide!

/-- C4, counterexample: `x = 5; print x;` assigns to a name absent from
the global frame; the claim requires `UndefinedVariable`, but the run
succeeds and prints `5` — `assign` silently created the binding. -/
theorem c4_counterexample_assign_creates_binding :
    (runFull 100 progAssignUndeclared (LoxNum.int 0)).1 = .ok () ∧
    (runFull 100 progAssignUndeclared (LoxNum.int 0)).2.output = ["5"] := by
  decide!

/-- C5, counterexample: `var a = a;` at the top level resolves without
error (no depth recorded for the reference) and the program IS
evaluated: the failure is a runtime `UndefinedVariable`, not a
resolution error. -/
theorem c5_counterexample_top_level_self_ref_resolves :
    (resolveProgram progSelfRefTop).isOk = true ∧
    (resolveProgram progSelfRefTop).toOption.map (fun L => lget L (varRef "a" 1)) =
      some none ∧
    (runFull 100 progSelfRefTop (LoxNum.int 0)).1 =
      .error (.evaluation (.rt (.undefinedVariable "a"))) := by
  decide!

/-- C7, counterexample: `class Foo {} Foo(1);` calls a class without an
`init` method passing one argument; the claim requires
`WrongNumberOfArgs` (expected 0), but the call succeeds. -/
theorem c7_counterexample_no_init_no_arity_check :
    (runFull 100 progClassNoInitArg (LoxNum.int 0)).1 = .ok () := by
  decide!

/-- C9: `for_statement` yields a `While` wrapped per the desugaring (no
`For` statement exists in the AST), an omitted condition defaults to the
`true` literal; the desugared `for (var i=0;i<3;i=i+1) print i;` and the
hand-written `var i=0; while(i<3){print i; i=i+1;}` produce the same
output `0`,`1`,`2`; and a `break` in an inner loop terminates only that
loop: the for-loop and while-loop versions both print `0`,`1`. -/
theorem c9_for_desugars_to_while :
    (∀ (i : Stmt) (c inc : Expr) (b : Stmt),
      forStatement (some i) (some c) (some inc) b =
        .block (.cons i
          (.cons (.whileS c (.block (.cons b (.cons (.expression inc) .nil)))) .nil))) ∧
    (∀ b : Stmt, forStatement none none none b = .whileS (.literal TRUE) b) ∧
    (runFull 100 progForCount (LoxNum.int 0)).2.output = ["0", "1", "2"] ∧
    (runFull 100 progForCount (LoxNum.int 0)).2.output =
      (runFull 100 progWhileCount (LoxNum.int 0)).2.output ∧
    (runFull 100 progForInnerBreak (LoxNum.int 0)).2.output = ["0", "1"] ∧
    (runFull 100 progForInnerBreak (LoxNum.int 0)).2.output =
      (runFull 100 progWhileInnerBreak (LoxNum.int 0)).2.output :=
  ⟨fun _ _ _ _ => rfl, fun _ => rfl, by decide!, by decide!, by decide!, by decide!⟩


/-! ### Helper lemmas (shared) -/

theorem M_bind_def {α β : Type} (x : M α) (f : α → M β) (s : IState) :
    (x >>= f) s =
      match x s with
      | (.ok a, s') => f a s'
      | (.error e, s') => (.error e, s') := rfl

theorem M_pure_def {α : Type} (a : α) (s : IState) : (pure a : M α) s = (.ok a, s) := rfl

theorem Except_bind_eq_ok {ε α β : Type} (x : Except ε α) (f : α → Except ε β) (b : β)
    (h : (x >>= f) = .ok b) : ∃ a, x = .ok a ∧ f a = .ok b := by
  cases x with
  | ok a => exact ⟨a, rfl, h⟩
  | error e => exact absurd h (by simp [Bind.bind, Except.bind])

theorem Except_error_bind {ε α β : Type} (e : ε) (f : α → Except ε β) :
    ((Except.error e : Except ε α) >>= f) = .error e := rfl

theorem Except_ok_bind {ε α β : Type} (a : α) (f : α → Except ε β) :
    ((Except.ok a : Except ε α) >>= f) = f a := rfl

theorem Except_isOk_error {ε α : Type} (e : ε) :
    (Except.error e : Except ε α).isOk = false := rfl

theorem Except_isOk_ok {ε α : Type} (a : α) :
    (Except.ok a : Except ε α).isOk = true := rfl

theorem List_set_of_getElem {α : Type} :
    ∀ (l : List α) (i : Nat) (x : α), l[i]? = some x → l.set i x = l := by
  intro l
  induction l with
  | nil => intro i x h; simp at h
  | cons a as ih =>
    intro i x h
    cases i with
    | zero => simp at h; simp [h]
    | succ i' =>
      simp only [List.getElem?_cons_succ] at h
      simp [List.set_cons_succ, ih i' x h]

theorem List_concat_set_last {α : Type} :
    ∀ (l : List α) (x y : α), (l ++ [x]).set l.length y = l ++ [y] := by
  intro l
  induction l with
  | nil => intro x y; rfl
  | cons a as ih => intro x y; simp [List.set_cons_succ, ih]

theorem aget_ainsert {α : Type} : ∀ (m : List (String × α)) (k : String) (v : α),
    aget (ainsert m k v) k = some v := by
  intro m k v
  induction m with
  | nil => simp [ainsert, aget, List.find?]
  | cons p rest ih =>
    obtain ⟨k2, v2⟩ := p
    by_cases hk : k2 == k
    · simp [ainsert, hk, aget, List.find?]
    · rw [show ainsert ((k2, v2) :: rest) k v = (k2, v2) :: ainsert rest k v by
        simp [ainsert, hk]]
      simpa [aget, List.find?, hk] using ih

theorem rposition_none_spec {α : Type} (p : α → Bool) :
    ∀ (l : List α), rposition p l = none →
      ∀ (m : Nat) (y : α), l[m]? = some y → p y = false := by
  intro l
  induction l with
  | nil => intro _ m y hm; simp at hm
  | cons x xs ih =>
    intro h m y hm
    simp only [rposition] at h
    cases hx : rposition p xs with
    | some k => rw [hx] at h; cases h
    | none =>
      rw [hx] at h
      by_cases hpx : p x
      · simp [hpx] at h
      · cases m with
        | zero => simp at hm; subst hm; simpa using hpx
        | succ m' =>
          simp only [List.getElem?_cons_succ] at hm
          exact ih hx m' y hm

theorem rposition_some_spec {α : Type} (p : α → Bool) :
    ∀ (l : List α) (i : Nat), rposition p l = some i →
      ∃ x, l[i]? = some x ∧ p x = true ∧
        ∀ (j : Nat) (y : α), i < j → l[j]? = some y → p y = false := by
  intro l
  induction l with
  | nil => intro i h; simp [rposition] at h
  | cons x xs ih =>
    intro i h
    simp only [rposition] at h
    cases hx : rposition p xs with
    | some k =>
      rw [hx] at h
      cases h
      obtain ⟨y, hy, hpy, hrest⟩ := ih k hx
      refine ⟨y, by simpa using hy, hpy, ?_⟩
      intro j z hj hz
      cases j with
      | zero => omega
      | succ j' =>
        simp only [List.getElem?_cons_succ] at hz
        exact hrest j' z (by omega) hz
    | none =>
      rw [hx] at h
      by_cases hpx : p x
      · simp [hpx] at h
        cases h
        refine ⟨x, by simp, hpx, ?_⟩
        intro j z hj hz
        cases j with
        | zero => omega
        | succ j' =>
          simp only [List.getElem?_cons_succ] at hz
          exact rposition_none_spec p xs hx j' z hz
      · simp [hpx] at h

theorem resolveLocal_scopes (st : RState) (e : Expr) (name : Token) :
    (resolveLocal st e name).scopes = st.scopes := by
  simp only [resolveLocal]
  cases rposition (fun s => Scope.containsName s name.lexeme) st.scopes <;> rfl

/- Expression resolution never touches the scope stack: resolution of
any expression that succeeds leaves `scopes` unchanged (only `locals`
grows).  Needed to carry the innermost-scope marker through the
self-referential-initializer argument. -/
mutual
theorem resolveExpr_scopes : ∀ (e : Expr) (st st' : RState),
    resolveExpr e st = .ok st' → st'.scopes = st.scopes
  | .assign name value, st, st', h => by
    simp only [resolveExpr] at h
    obtain ⟨a, ha, hf⟩ := Except_bind_eq_ok _ _ _ h
    cases hf
    rw [resolveLocal_scopes]
    exact resolveExpr_scopes value st a ha
  | .binary left op right, st, st', h => by
    simp only [resolveExpr] at h
    obtain ⟨a, ha, hf⟩ := Except_bind_eq_ok _ _ _ h
    rw [resolveExpr_scopes right a st' hf, resolveExpr_scopes left st a ha]
  | .call callee args, st, st', h => by
    simp only [resolveExpr] at h
    obtain ⟨a, ha, hf⟩ := Except_bind_eq_ok _ _ _ h
    rw [resolveExprList_scopes args a st' hf, resolveExpr_scopes callee st a ha]
  | .get object name, st, st', h => by
    simp only [resolveExpr] at h
    exact resolveExpr_scopes object st st' h
  | .unary op right, st, st', h => by
    simp only [resolveExpr] at h
    exact resolveExpr_scopes right st st' h
  | .grouping e, st, st', h => by
    simp only [resolveExpr] at h
    exact resolveExpr_scopes e st st' h
  | .literal v, st, st', h => by
    simp only [resolveExpr] at h
    cases h
    rfl
  | .logical left op right, st, st', h => by
    simp only [resolveExpr] at h
    obtain ⟨a, ha, hf⟩ := Except_bind_eq_ok _ _ _ h
    rw [resolveExpr_scopes right a st' hf, resolveExpr_scopes left st a ha]
  | .set object name value, st, st', h => by
    simp only [resolveExpr] at h
    exact Except.noConfusion h
  | .this keyword, st, st', h => by
    simp only [resolveExpr] at h
    exact Except.noConfusion h
  | .variable name, st, st', h => by
    simp only [resolveExpr] at h
    split at h
    · cases h
    · cases h
      rw [resolveLocal_scopes]
theorem resolveExprList_scopes : ∀ (l : ExprList) (st st' : RState),
    resolveExprList l st = .ok st' → st'.scopes = st.scopes
  | .nil, st, st', h => by
    simp only [resolveExprList] at h
    cases h
    rfl
  | .cons e rest, st, st', h => by
    simp only [resolveExprList] at h
    obtain ⟨a, ha, hf⟩ := Except_bind_eq_ok _ _ _ h
    rw [resolveExprList_scopes rest a st' hf, resolveExpr_scopes e st a ha]
end

/- Resolving an expression cannot succeed while the innermost scope
marks a mentioned name as declared-but-uninitialised: the `Variable`
arm's own-initializer check fires on the mention (and the `Set`/`This`
cases have no resolver arm at all, so they never succeed either). -/
mutual
theorem resolveExpr_mentions_fails : ∀ (e : Expr) (n : String) (st : RState) (sc : Scope),
    st.scopes.getLast? = some sc → aget sc n = some false →
    Expr.mentionsVar n e = true → (resolveExpr e st).isOk = false
  | .assign name value, n, st, sc, hlast, hsc, hm => by
    simp only [Expr.mentionsVar] at hm
    simp only [resolveExpr]
    have hv := resolveExpr_mentions_fails value n st sc hlast hsc hm
    cases hval : resolveExpr value st with
    | ok a => rw [hval] at hv; exact absurd hv (by simp [Except_isOk_ok])
    | error e => rfl
  | .binary left op right, n, st, sc, hlast, hsc, hm => by
    simp only [Expr.mentionsVar, Bool.or_eq_true] at hm
    simp only [resolveExpr]
    cases hval : resolveExpr left st with
    | error e => rfl
    | ok a =>
      cases hm with
      | inl hml =>
        have hf := resolveExpr_mentions_fails left n st sc hlast hsc hml
        rw [hval] at hf
        exact absurd hf (by simp [Except_isOk_ok])
      | inr hmr =>
        rw [Except_ok_bind]
        have hsco : a.scopes = st.scopes := resolveExpr_scopes left st a hval
        exact resolveExpr_mentions_fails right n a sc (by rw [hsco]; exact hlast) hsc hmr
  | .call callee args, n, st, sc, hlast, hsc, hm => by
    simp only [Expr.mentionsVar, Bool.or_eq_true] at hm
    simp only [resolveExpr]
    cases hval : resolveExpr callee st with
    | error e => rfl
    | ok a =>
      cases hm with
      | inl hml =>
        have hf := resolveExpr_mentions_fails callee n st sc hlast hsc hml
        rw [hval] at hf
        exact absurd hf (by simp [Except_isOk_ok])
      | inr hmr =>
        rw [Except_ok_bind]
        have hsco : a.scopes = st.scopes := resolveExpr_scopes callee st a hval
        exact resolveExprList_mentions_fails args n a sc (by rw [hsco]; exact hlast) hsc hmr
  | .get object name, n, st, sc, hlast, hsc, hm => by
    simp only [Expr.mentionsVar] at hm
    simp only [resolveExpr]
    exact resolveExpr_mentions_fails object n st sc hlast hsc hm
  | .unary op right, n, st, sc, hlast, hsc, hm => by
    simp only [Expr.mentionsVar] at hm
    simp only [resolveExpr]
    exact resolveExpr_mentions_fails right n st sc hlast hsc hm
  | .grouping e, n, st, sc, hlast, hsc, hm => by
    simp only [Expr.mentionsVar] at hm
    simp only [resolveExpr]
    exact resolveExpr_mentions_fails e n st sc hlast hsc hm
  | .literal v, n, st, sc, hlast, hsc, hm => by
    simp [Expr.mentionsVar] at hm
  | .logical left op right, n, st, sc, hlast, hsc, hm => by
    simp only [Expr.mentionsVar, Bool.or_eq_true] at hm
    simp only [resolveExpr]
    cases hval : resolveExpr left st with
    | error e => rfl
    | ok a =>
      cases hm with
      | inl hml =>
        have hf := resolveExpr_mentions_fails left n st sc hlast hsc hml
        rw [hval] at hf
        exact absurd hf (by simp [Except_isOk_ok])
      | inr hmr =>
        rw [Except_ok_bind]
        have hsco : a.scopes = st.scopes := resolveExpr_scopes left st a hval
        exact resolveExpr_mentions_fails right n a sc (by rw [hsco]; exact hlast) hsc hmr
  | .set object name value, n, st, sc, hlast, hsc, hm => by
    simp [resolveExpr, Except_isOk_error]
  | .this keyword, n, st, sc, hlast, hsc, hm => by
    simp [resolveExpr, Except_isOk_error]
  | .variable name, n, st, sc, hlast, hsc, hm => by
    simp only [Expr.mentionsVar] at hm
    have hn : name.lexeme = n := eq_of_beq hm
    simp only [resolveExpr]
    rw [hlast]
    simp only [Option.bind_some, hn, hsc]
    simp [hsc, Except_isOk_error]
theorem resolveExprList_mentions_fails :
    ∀ (l : ExprList) (n : String) (st : RState) (sc : Scope),
      st.scopes.getLast? = some sc → aget sc n = some false →
      ExprList.mentionsVar n l = true → (resolveExprList l st).isOk = false
  | .nil, n, st, sc, hlast, hsc, hm => by
    simp [ExprList.mentionsVar] at hm
  | .cons e rest, n, st, sc, hlast, hsc, hm => by
    simp only [ExprList.mentionsVar, Bool.or_eq_true] at hm
    simp only [resolveExprList]
    cases hval : resolveExpr e st with
    | error err => rfl
    | ok a =>
      cases hm with
      | inl hml =>
        have hf := resolveExpr_mentions_fails e n st sc hlast hsc hml
        rw [hval] at hf
        exact absurd hf (by simp [Except_isOk_ok])
      | inr hmr =>
        rw [Except_ok_bind]
        have hsco : a.scopes = st.scopes := resolveExpr_scopes e st a hval
        exact resolveExprList_mentions_fails rest n a sc (by rw [hsco]; exact hlast) hsc hmr
end

theorem bindParams_spec :
    ∀ (l : List (Nat × String)) (s : IState) (fid : Nat) (fr : Frame),
      s.env.getLast? = some fid →
      s.frames[fid]? = some fr →
      bindParams l s =
        (.ok (), { s with frames := s.frames.set fid (paramBind fr l) }) := by
  intro l
  induction l with
  | nil =>
    intro s fid fr henv hfr
    simp [bindParams, M_pure_def, paramBind, List_set_of_getElem _ _ _ hfr]
  | cons p rest ih =>
    intro s fid fr henv hfr
    have hlt : fid < s.frames.length := by
      by_contra hc
      simp only [not_lt] at hc
      rw [List.getElem?_eq_none hc] at hfr
      cases hfr
    obtain ⟨arg, param⟩ := p
    have hstep : bindParams ((arg, param) :: rest) s =
        bindParams rest { s with frames := s.frames.set fid (ainsert fr param arg) } := by
      simp [bindParams, M_bind_def, defineVar, getS, defineInFrame, throwF, henv, hfr,
        M_pure_def]
    rw [hstep]
    rw [ih _ fid (ainsert fr param arg) (by simpa using henv)
      (by simp [List.getElem?_set_self, hlt])]
    simp [List.set_set, paramBind]


/-- C3 (amended): when some scope contains the name, `resolve_local`
records for the expression node the `rposition` depth — the index,
counted from the outermost resolver scope, of the innermost scope
containing the name (every scope above that index lacks the name); when
no scope contains it, nothing is recorded. -/
theorem c3_amended_depth_is_rposition :
    ∀ (st : RState) (e : Expr) (name : Token),
      (∀ d, rposition (fun sc => Scope.containsName sc name.lexeme) st.scopes = some d →
        resolveLocal st e name = { st with locals := linsert st.locals e d } ∧
        (∃ sc, st.scopes[d]? = some sc ∧ Scope.containsName sc name.lexeme = true) ∧
        (∀ (j : Nat) (sc : Scope), d < j → st.scopes[j]? = some sc →
          Scope.containsName sc name.lexeme = false)) ∧
      (rposition (fun sc => Scope.containsName sc name.lexeme) st.scopes = none →
        resolveLocal st e name = st ∧
        ∀ (j : Nat) (sc : Scope), st.scopes[j]? = some sc →
          Scope.containsName sc name.lexeme = false) := by
  intro st e name
  constructor
  · intro d hd
    refine ⟨by simp [resolveLocal, hd], ?_, ?_⟩
    · obtain ⟨x, hx, hpx, _⟩ := rposition_some_spec _ _ _ hd
      exact ⟨x, hx, hpx⟩
    · intro j sc hj hsc
      obtain ⟨x, hx, hpx, hrest⟩ := rposition_some_spec _ _ _ hd
      exact hrest j sc hj hsc
  · intro hn
    exact ⟨by simp [resolveLocal, hn], fun j sc hsc => rposition_none_spec _ _ hn j sc hsc⟩

/-- Witness for C3 (amended): with an outer scope holding `a` and an
empty innermost scope, the recorded depth is 0 — the outer scope's
absolute index. -/
theorem c3_amended_depth_is_rposition_witness :
    rposition (fun sc => Scope.containsName sc "a") [[("a", true)], []] = some 0 ∧
    resolveLocal ⟨[[("a", true)], []], [], none⟩ (varRef "a" 2) (identTok "a" 2) =
      { scopes := [[("a", true)], []], locals := [(varRef "a" 2, 0)],
        currentFunctionType := none } :=
  ⟨by decide,
    ((c3_amended_depth_is_rposition ⟨[[("a", true)], []], [], none⟩ (varRef "a" 2)
      (identTok "a" 2)).1 0 (by decide)).1⟩

/-- C4 (amended): with the frame targeted by the resolved depth (frame
`d + 1` of the chain for depth `d`, the global frame for no depth) and
the name absent from that frame, `get` fails with `UndefinedVariable`,
while `assign` silently creates the binding in that frame and returns
the assigned cell. -/
theorem c4_amended_get_fails_assign_defines :
    ∀ (s : IState) (name : String) (depth : Option Nat) (fid : Nat) (fr : Frame) (a : Nat),
      (match depth with
       | some d => s.env[d + 1]?
       | none => s.env.head?) = some fid →
      s.frames[fid]? = some fr →
      aget fr name = none →
      envGet name depth s = (.error (.rt (.undefinedVariable name)), s) ∧
      envAssign name a depth s =
        (.ok a, { s with frames := s.frames.set fid (ainsert fr name a) }) := by
  intro s name depth fid fr a htarget hfr hget
  have ht : targetFrame depth s = (.ok fid, s) := by
    cases depth with
    | some d =>
      simp only [Option.some.injEq] at htarget
      simp [targetFrame, M_bind_def, M_pure_def, getS, throwF, htarget]
    | none =>
      simp only [Option.some.injEq] at htarget
      simp [targetFrame, M_bind_def, M_pure_def, getS, throwF, htarget]
  constructor
  · simp [envGet, M_bind_def, M_pure_def, getS, throwF, ht, hfr, hget]
  · simp [envAssign, M_bind_def, M_pure_def, defineInFrame, ht, hfr]

/-- Witness for C4 (amended): in the initial state the global frame
lacks `q`; `get` fails with `UndefinedVariable q` and `assign` creates
the binding. -/
theorem c4_amended_get_fails_assign_defines_witness :
    envGet "q" none (initState (LoxNum.int 0)) =
      (.error (.rt (.undefinedVariable "q")), initState (LoxNum.int 0)) ∧
    envAssign "q" 0 none (initState (LoxNum.int 0)) =
      (.ok 0, { initState (LoxNum.int 0) with
        frames := [[("clock", 0), ("tsp2cup", 1), ("q", 0)]] }) :=
  c4_amended_get_fails_assign_defines (initState (LoxNum.int 0)) "q" none 0
    [("clock", 0), ("tsp2cup", 1)] 0 (by decide) (by decide) (by decide)

/-- C5 (amended): a `var` declaration whose initializer reads the
declared name never resolves successfully when at least one scope is
open (the innermost scope marks the name uninitialised, and any read of
it fails the own-initializer check — or `declare` already rejects a
duplicate); the concrete block program fails with exactly the
own-initializer resolution error. -/
theorem c5_amended_self_ref_in_scope_fails :
    (∀ (st : RState) (name : Token) (init : Expr),
      st.scopes ≠ [] →
      Expr.mentionsVar name.lexeme init = true →
      (resolveStmt (.varS name (some init)) st).isOk = false) ∧
    resolveFailure (resolveProgram progSelfRefBlock) =
      some (.resolution "Cannot read local variable in its own initializer") := by
  constructor
  · intro st name init hne hm
    obtain ⟨sc, hsc⟩ : ∃ sc, st.scopes.getLast? = some sc := by
      cases hl : st.scopes.getLast? with
      | some sc => exact ⟨sc, rfl⟩
      | none => exact absurd (List.getLast?_eq_none_iff.mp hl) hne
    simp only [resolveStmt]
    by_cases hc : Scope.containsName sc name.lexeme
    · have hdecl : declare st name =
          .error (.resolution
            ("Variable " ++ name.lexeme ++ " was already defined in this scope")) := by
        simp [declare, hsc, hc]
      rw [hdecl, Except_error_bind, Except_isOk_error]
    · have hdecl : declare st name =
          .ok { st with scopes := st.scopes.dropLast ++ [ainsert sc name.lexeme false] } := by
        simp [declare, hsc, hc]
      rw [hdecl, Except_ok_bind]
      have hlast2 : (st.scopes.dropLast ++ [ainsert sc name.lexeme false]).getLast? =
          some (ainsert sc name.lexeme false) := by
        simp [List.getLast?_concat]
      have hfail := resolveExpr_mentions_fails init name.lexeme
        { st with scopes := st.scopes.dropLast ++ [ainsert sc name.lexeme false] }
        (ainsert sc name.lexeme false) hlast2 (aget_ainsert _ _ _) hm
      cases hval : resolveExpr init
          { st with scopes := st.scopes.dropLast ++ [ainsert sc name.lexeme false] } with
      | error e => rw [Except_error_bind, Except_isOk_error]
      | ok a => rw [hval] at hfail; exact absurd hfail (by simp [Except_isOk_ok])
  · decide!

/-- Witness for C5 (amended): inside one open scope, `var a = a;` does
not resolve. -/
theorem c5_amended_self_ref_in_scope_fails_witness :
    ([[]] : List Scope) ≠ [] ∧
    Expr.mentionsVar "a" (varRef "a" 1) = true ∧
    (resolveStmt (.varS (identTok "a" 1) (some (varRef "a" 1)))
      ⟨[[]], [], none⟩).isOk = false :=
  ⟨by decide, by decide,
    c5_amended_self_ref_in_scope_fails.1 ⟨[[]], [], none⟩ (identTok "a" 1) (varRef "a" 1)
      (by decide) (by decide)⟩

/-- C6: the `Value::Function` call case with matching arity swaps the
active chain for the closure chain, pushes one fresh frame holding the
parameters bound positionally to the arguments, runs the body, then
pops and restores the caller's chain for every outcome of the body
(normal, error, or signal); a normal completion yields a fresh `Nil`
cell, and the call arm's filter turns a `Return` signal into its
carried value. -/
theorem c6_call_swaps_restores_returns :
    (∀ (L : Locals) (fuel : Nat) (params : List String) (body : StmtList)
        (closure : List Nat) (args : List Nat) (s : IState)
        (rb : Except Failure Unit) (sb : IState),
      args.length = params.length →
      interpretL L fuel body
        { s with frames := s.frames ++ [paramBind [] (args.zip params)],
                 env := closure ++ [s.frames.length] } = (rb, sb) →
      callFunction L (fuel + 1) params body closure args s =
        match rb with
        | .ok () => (.ok sb.heap.length, { sb with env := s.env, heap := sb.heap ++ [.nil] })
        | .error e => (.error e, { sb with env := s.env })) ∧
    (∀ (v : Nat), callOutcome (.error (.rt (.ret v))) = .ok v) ∧
    (∀ (a : Nat), callOutcome (.ok a) = .ok a) := by
  refine ⟨?_, fun v => rfl, fun a => rfl⟩
  intro L fuel params body closure args s rb sb harity hrun
  have hbp := bindParams_spec (args.zip params)
      { s with frames := s.frames ++ [[]], env := closure ++ [s.frames.length] }
      s.frames.length [] (by simp) (by simp [List.getElem?_concat_length])
  have hrun' : (mkInterp L fuel).interpretL body
      { s with frames := s.frames ++ [paramBind [] (args.zip params)],
               env := closure ++ [s.frames.length] } = (rb, sb) := hrun
  simp only [callFunction, mkInterp, callFunctionStep, harity, ne_eq, not_true_eq_false,
    if_false, ite_false, M_bind_def, M_pure_def, getS, setS, epush, epop, attempt,
    alloc, throwF]
  rw [List_concat_set_last] at hbp
  rw [hbp]
  simp only [hrun']
  cases rb with
  | ok u => cases u; rfl
  | error e => rfl

/-- Witness for C6: calling a one-parameter function with an empty body
on one argument, in the initial state: the body runs in the swapped
chain `[0, 1]` with frame 1 binding `x`, and the call returns a fresh
`Nil` cell with the caller's chain `[0]` restored. -/
theorem c6_call_swaps_restores_returns_witness :
    ([0] : List Nat).length = ["x"].length ∧
    callFunction [] (5 + 1) ["x"] .nil [0] [0] (initState (LoxNum.int 0)) =
      (.ok 2,
        { heap := [.nativeFunction "clock" 0 .clock, .nativeFunction "tsp2cup" 1 .tsp2cup,
            .nil]
          frames := [[("clock", 0), ("tsp2cup", 1)], [("x", 0)]]
          env := [0]
          output := []
          now := LoxNum.int 0 }) :=
  ⟨rfl,
    c6_call_swaps_restores_returns.1 [] 5 ["x"] .nil [0] [0] (initState (LoxNum.int 0))
      (.ok ())
      { initState (LoxNum.int 0) with
        frames := [[("clock", 0), ("tsp2cup", 1)], [("x", 0)]], env := [0, 1] }
      rfl (by rfl)⟩

/-- C7 (amended): argument-count mismatches fail with
`WrongNumberOfArgs{expected, got}` for native functions, user functions
and classes whose `init` is a function value — but a class with no
`init` method performs no arity check: the call succeeds with any
number of arguments and returns the new instance. -/
theorem c7_amended_arity_checks :
    (∀ (L : Locals) (fuel : Nat) (s : IState) (nm : String) (arity : Nat) (f : NativeImpl)
        (args : List Nat), args.length ≠ arity →
      dispatchCall L (fuel + 1) (.nativeFunction nm arity f) args s =
        (.error (.rt (.wrongNumberOfArgs arity args.length)), s)) ∧
    (∀ (L : Locals) (fuel : Nat) (s : IState) (params : List String) (body : StmtList)
        (closure : List Nat) (args : List Nat), args.length ≠ params.length →
      callFunction L (fuel + 1) params body closure args s =
        (.error (.rt (.wrongNumberOfArgs params.length args.length)), s)) ∧
    (∀ (L : Locals) (fuel : Nat) (s : IState) (cname : String)
        (methods : List (String × Nat)) (args : List Nat) (ia : Nat) (fname : String)
        (params : List String) (body : StmtList) (closure : List Nat),
      aget methods "init" = some ia →
      s.heap[ia]? = some (.function fname params body closure) →
      args.length ≠ params.length →
      callClass L (fuel + 1) cname methods args s =
        (.error (.rt (.wrongNumberOfArgs params.length args.length)),
         { s with heap := s.heap ++
            [.classV cname methods, .instanceV s.heap.length methods] })) ∧
    (∀ (L : Locals) (fuel : Nat) (s : IState) (cname : String)
        (methods : List (String × Nat)) (args : List Nat),
      aget methods "init" = none →
      callClass L (fuel + 1) cname methods args s =
        (.ok (s.heap.length + 1),
         { s with heap := s.heap ++
            [.classV cname methods, .instanceV s.heap.length methods] })) := by
  refine ⟨?_, ?_, ?_, ?_⟩
  · intro L fuel s nm arity f args h
    simp [dispatchCall, mkInterp, dispatchCallStep, throwF, h]
  · intro L fuel s params body closure args h
    simp [callFunction, mkInterp, callFunctionStep, throwF, h]
  · intro L fuel s cname methods args ia fname params body closure hinit hheap h
    have hia : ia < s.heap.length := by
      by_contra hc
      simp only [not_lt] at hc
      rw [List.getElem?_eq_none hc] at hheap
      cases hheap
    have hread : (s.heap ++ [Value.classV cname methods,
        Value.instanceV s.heap.length methods])[ia]? =
        some (Value.function fname params body closure) := by
      simp [List.getElem?_append, hia, hheap]
    simp [callClass, mkInterp, callClassStep, M_bind_def, M_pure_def, alloc, readCell,
      throwF, hinit, h, hread]
  · intro L fuel s cname methods args hinit
    simp [callClass, mkInterp, callClassStep, M_bind_def, M_pure_def, alloc, hinit]

/-- Witness for C7 (amended): the native `clock` (arity 0) called with
one argument fails with `WrongNumberOfArgs 0 1`, while a method-less
class called with the same one argument succeeds. -/
theorem c7_amended_arity_checks_witness :
    ([0] : List Nat).length ≠ 0 ∧
    dispatchCall [] (3 + 1) (.nativeFunction "clock" 0 .clock) [0]
        (initState (LoxNum.int 0)) =
      (.error (.rt (.wrongNumberOfArgs 0 1)), initState (LoxNum.int 0)) ∧
    aget ([] : List (String × Nat)) "init" = none ∧
    callClass [] (3 + 1) "Foo" [] [0] (initState (LoxNum.int 0)) =
      (.ok 3, { initState (LoxNum.int 0) with
        heap := (initState (LoxNum.int 0)).heap ++ [.classV "Foo" [], .instanceV 2 []] }) :=
  ⟨by decide,
    c7_amended_arity_checks.1 [] 3 (initState (LoxNum.int 0)) "clock" 0 .clock [0]
      (by decide),
    by decide,
    c7_amended_arity_checks.2.2.2 [] 3 (initState (LoxNum.int 0)) "Foo" [] [0] (by decide)⟩

/-- C8: binary `+` yields the numeric sum on two Numbers and the
concatenation on two Strings; on any other pair of operand kinds it
fails with an `Unimplemented` error whose message names both operand
kinds — no coercion between Number and String exists. -/
theorem c8_plus_no_coercion :
    (∀ a b : LoxNum, binaryOp (.number a) .plus (.number b) = .ok (.number (a.add b))) ∧
    (∀ s t : String, binaryOp (.string s) .plus (.string t) = .ok (.string (s ++ t))) ∧
    (∀ v w : Value,
      (∀ a b, ¬(v = .number a ∧ w = .number b)) →
      (∀ s t, ¬(v = .string s ∧ w = .string t)) →
      binaryOp v .plus w =
        .error (.unimplemented
          ("Binary operation not implemented: " ++ v.kindName ++ " "
            ++ TokenType.display .plus ++ " " ++ w.kindName))) := by
  refine ⟨fun a b => rfl, fun s t => rfl, ?_⟩
  intro v w h1 h2
  cases v <;> cases w <;>
    first
      | rfl
      | exact absurd ⟨rfl, rfl⟩ (h1 _ _)
      | exact absurd ⟨rfl, rfl⟩ (h2 _ _)

/-- Witness for C8: `"foo" + 1` is the typed `Unimplemented` error
naming `String` and `Number`. -/
theorem c8_plus_no_coercion_witness :
    binaryOp (.string "foo") .plus (.number (LoxNum.int 1)) =
      .error (.unimplemented "Binary operation not implemented: String + Number") :=
  c8_plus_no_coercion.2.2 (.string "foo") (.number (LoxNum.int 1))
    (fun _ _ h => Value.noConfusion h.1) (fun _ _ h => Value.noConfusion h.2)

/-- C10: a property get on an Instance whose field table lacks the name
fails with `UndefinedVariable` carrying the attribute name (never
evaluating to `Nil`), while `OnlyInstancesHaveAttributes` is raised
exactly for non-instance receivers. -/
theorem c10_get_missing_attribute :
    (∀ (s : IState) (o : Nat) (name : Token) (classRef : Nat)
        (fields : List (String × Nat)),
      s.heap[o]? = some (.instanceV classRef fields) →
      aget fields name.lexeme = none →
      getAttr o name s = (.error (.rt (.undefinedVariable name.lexeme)), s)) ∧
    (∀ (s : IState) (o : Nat) (name : Token) (v : Value),
      s.heap[o]? = some v →
      (∀ classRef fields, v ≠ .instanceV classRef fields) →
      getAttr o name s = (.error (.rt .onlyInstancesHaveAttributes), s)) := by
  constructor
  · intro s o name classRef fields hheap hget
    simp [getAttr, M_bind_def, M_pure_def, readCell, throwF, hheap, hget]
  · intro s o name v hheap hne
    cases v <;> simp [getAttr, M_bind_def, M_pure_def, readCell, throwF, hheap]
    all_goals first
      | rfl
      | exact absurd rfl (hne _ _)

/-- Witness for C10: reading attribute `f` from a field-less instance
at cell 0 fails with `UndefinedVariable f`; reading any attribute from
the class value at cell 1 fails with `OnlyInstancesHaveAttributes`. -/
theorem c10_get_missing_attribute_witness :
    getAttr 0 (identTok "f" 1)
        ⟨[.instanceV 1 [], .classV "Foo" []], [], [], [], LoxNum.int 0⟩ =
      (.error (.rt (.undefinedVariable "f")),
        ⟨[.instanceV 1 [], .classV "Foo" []], [], [], [], LoxNum.int 0⟩) ∧
    getAttr 1 (identTok "f" 1)
        ⟨[.instanceV 1 [], .classV "Foo" []], [], [], [], LoxNum.int 0⟩ =
      (.error (.rt .onlyInstancesHaveAttributes),
        ⟨[.instanceV 1 [], .classV "Foo" []], [], [], [], LoxNum.int 0⟩) :=
  ⟨c10_get_missing_attribute.1 _ 0 (identTok "f" 1) 1 [] (by rfl) (by decide),
    c10_get_missing_attribute.2 _ 1 (identTok "f" 1) (.classV "Foo" []) (by rfl)
      (fun _ _ h => Value.noConfusion h)⟩

end Gejang
